import Mathlib

/-!
Verification of the retrieval-augmented answering pipeline of the
Celeby-Agentic-RAG repository.

The repository ships a React frontend (under `frontend/src`) whose relevant
functions (`updateLocalMetrics` in `App.jsx`, `processEvent` and
`handleStreamingQuery` in `ChatInterface.jsx`, `handleDelete` in
`DocumentsList.jsx`) are embedded below directly from the JavaScript source.
The Python backend (hybrid retriever with Reciprocal Rank Fusion, answer
validator, correction controller, document deletion) is not present in the
available sources — only its README sketches and its frontend callers are —
so those components are modelled from the specification, as indicated on
each definition.
-/

namespace Celeby

/-! ### Reciprocal Rank Fusion (Hybrid Retriever) -/

/-- Modelled from the spec: the 1-based rank of candidate `c` in a ranked
list, `none` when the candidate does not appear. Chunks are identified by
their numeric document/chunk id. -/
def rankOf (c : Nat) : List Nat → Option Nat
  | [] => none
  | x :: xs => if x = c then some 1 else (rankOf c xs).map (· + 1)

/-- Modelled from the spec: the contribution of one ranked list to a
candidate's fused score, `1 / (rank_constant + rank_position)` when the
candidate appears and `0` otherwise. -/
def listContribution (k : Nat) (c : Nat) (l : List Nat) : ℚ :=
  match rankOf c l with
  | some r => 1 / ((k : ℚ) + (r : ℚ))
  | none => 0

/-- Modelled from the spec: the Reciprocal Rank Fusion score of a candidate,
the sum over every ranked list of that list's contribution. -/
def rrfScore (k : Nat) (lists : List (List Nat)) (c : Nat) : ℚ :=
  (lists.map (listContribution k c)).sum

/-- Modelled from the spec: the number of ranked lists in which a candidate
appears. -/
def appearCount (lists : List (List Nat)) (c : Nat) : Nat :=
  (lists.filter (fun l => (rankOf c l).isSome)).length

/-- Modelled from the spec: the best (lowest, 1-based) rank of a candidate
across all ranked lists, `none` when it appears in none of them. -/
def bestRank (lists : List (List Nat)) (c : Nat) : Option Nat :=
  (lists.filterMap (fun l => rankOf c l)).foldr
    (fun r acc =>
      match acc with
      | none => some r
      | some m => some (if r ≤ m then r else m))
    none

/-- Modelled from the spec: the fused ordering — higher fused score first,
ties broken by number of lists appeared in (descending), then by original
document id (ascending). `rrfPrecedes k lists a b` states that candidate `a`
may be placed no later than candidate `b`. -/
def rrfPrecedes (k : Nat) (lists : List (List Nat)) (a b : Nat) : Prop :=
  rrfScore k lists b < rrfScore k lists a ∨
    (rrfScore k lists a = rrfScore k lists b ∧
      (appearCount lists b < appearCount lists a ∨
        (appearCount lists a = appearCount lists b ∧ a ≤ b)))

instance (k : Nat) (lists : List (List Nat)) : DecidableRel (rrfPrecedes k lists) :=
  fun a b =>
    decidable_of_iff
      (rrfScore k lists b < rrfScore k lists a ∨
        (rrfScore k lists a = rrfScore k lists b ∧
          (appearCount lists b < appearCount lists a ∨
            (appearCount lists a = appearCount lists b ∧ a ≤ b))))
      Iff.rfl

instance (k : Nat) (lists : List (List Nat)) : IsTotal Nat (rrfPrecedes k lists) where
  total a b := by
    unfold rrfPrecedes
    rcases lt_trichotomy (rrfScore k lists a) (rrfScore k lists b) with hs | hs | hs
    · exact Or.inr (Or.inl hs)
    · rcases Nat.lt_trichotomy (appearCount lists a) (appearCount lists b) with hc | hc | hc
      · exact Or.inr (Or.inr ⟨hs.symm, Or.inl hc⟩)
      · rcases Nat.le_total a b with hab | hab
        · exact Or.inl (Or.inr ⟨hs, Or.inr ⟨hc, hab⟩⟩)
        · exact Or.inr (Or.inr ⟨hs.symm, Or.inr ⟨hc.symm, hab⟩⟩)
      · exact Or.inl (Or.inr ⟨hs, Or.inl hc⟩)
    · exact Or.inl (Or.inl hs)

instance (k : Nat) (lists : List (List Nat)) : IsTrans Nat (rrfPrecedes k lists) where
  trans a b c hab hbc := by
    unfold rrfPrecedes at *
    rcases hab with hab | ⟨habs, hab⟩
    · rcases hbc with hbc | ⟨hbcs, _⟩
      · exact Or.inl (lt_trans hbc hab)
      · exact Or.inl (hbcs ▸ hab)
    · rcases hbc with hbc | ⟨hbcs, hbc⟩
      · exact Or.inl (habs ▸ hbc)
      · refine Or.inr ⟨habs.trans hbcs, ?_⟩
        rcases hab with hab | ⟨habc, hab⟩
        · rcases hbc with hbc | ⟨hbcc, _⟩
          · exact Or.inl (lt_trans hbc hab)
          · exact Or.inl (hbcc ▸ hab)
        · rcases hbc with hbc | ⟨hbcc, hbc⟩
          · exact Or.inl (habc ▸ hbc)
          · exact Or.inr ⟨habc.trans hbcc, le_trans hab hbc⟩

/-- Modelled from the spec: the fused ranking produced by the Hybrid
Retriever — every candidate appearing in some ranked list, ordered by fused
score with the documented tie-breaking. -/
def rrfFuse (k : Nat) (lists : List (List Nat)) : List Nat :=
  List.insertionSort (rrfPrecedes k lists) (lists.flatten.dedup)

/-! ### Correction Controller and Answer Validator -/

/-- Modelled from the spec: the outcome of one controller run — either an
answer carrying its validation flag and the number of generation attempts
performed, or an explicit typed generation failure. -/
inductive RunResult where
  | answer (text : String) (validated : Bool) (attempts : Nat)
  | genFailure
deriving DecidableEq, Repr

/-- Modelled from the spec: the bounded self-correction loop.  `gen n` is the
answer produced by generation attempt `n` (`none` = generation failure,
fatal for the run), `validator n` the verdict on attempt `n`.  A supported
answer is accepted; an unsupported one triggers a retry while the attempt
counter is below `maxRetries`, and otherwise the last answer is returned
flagged as unvalidated. -/
def correctionLoop (gen : Nat → Option String) (validator : Nat → Bool)
    (maxRetries attempt : Nat) : RunResult :=
  match gen attempt with
  | none => RunResult.genFailure
  | some ans =>
    if validator attempt then RunResult.answer ans true (attempt + 1)
    else if h : attempt < maxRetries then
      correctionLoop gen validator maxRetries (attempt + 1)
    else RunResult.answer ans false (attempt + 1)
termination_by maxRetries - attempt
decreasing_by omega

/-- Modelled from the spec: one controller run starts at attempt counter 0. -/
def runController (gen : Nat → Option String) (validator : Nat → Bool)
    (maxRetries : Nat) : RunResult :=
  correctionLoop gen validator maxRetries 0

/-- Modelled from the spec: the Answer Validator's verdict.  The model
response is parsed by `parseVerdict` into `some true` (affirmative),
`some false` (non-affirmative) or `none` (parse failure / inconclusive);
only an affirmative parse yields a "supported" verdict. -/
def validatorVerdict (parseVerdict : String → Option Bool) (response : String) : Bool :=
  match parseVerdict response with
  | some true => true
  | _ => false

/-! ### Document deletion (both indices) -/

/-- Modelled from the spec: the joint state of the lexical and vector
indices; each entry is a chunk id paired with the name of its owning
document. -/
structure IndexState where
  lex : List (Nat × String)
  vec : List (Nat × String)
deriving DecidableEq, Repr

/-- Removes every chunk owned by `doc` from one index. -/
def removeDocChunks (entries : List (Nat × String)) (doc : String) : List (Nat × String) :=
  entries.filter (fun c => c.2 ≠ doc)

/-- Modelled from the spec: deleting a document removes all of its chunks
from both indices atomically; `ok` abstracts whether the delete succeeds.
On failure both indices keep the document's prior indexed state. -/
def deleteDocument (st : IndexState) (doc : String) (ok : Bool) : IndexState :=
  if ok then
    { lex := removeDocChunks st.lex doc, vec := removeDocChunks st.vec doc }
  else st

/-! ### Frontend stream consumer (`ChatInterface.jsx`, `handleStreamingQuery`) -/

/-- A server-sent event after JSON parsing, as distinguished by
`processEvent` in `ChatInterface.jsx`: the `type` field selects the branch,
`answer` events additionally carry their `done` flag.  `otherEv` stands for
any payload whose `type` matches no branch. -/
inductive StreamEvent where
  | convEv (conversationId : Option String)
  | answerChunk (content : String)
  | metadataEv
  | answerEv (content : String) (done : Bool)
  | errorEv (content : String)
  | otherEv
deriving DecidableEq, Repr

/-- Whether an event is an `error` event (which `processEvent` turns into a
thrown exception). -/
def isErrorEvent : StreamEvent → Bool
  | StreamEvent.errorEv _ => true
  | _ => false

/-- The effect of `processEvent` on the accumulated `streamedAnswer`:
an `answer_chunk` appends its content, an `answer` event with `done` set
replaces the accumulator with its content, an `error` event throws, and
every other event leaves the accumulator unchanged. -/
def applyEvent (acc : String) : StreamEvent → Except String String
  | StreamEvent.answerChunk c => Except.ok (acc ++ c)
  | StreamEvent.answerEv c true => Except.ok c
  | StreamEvent.errorEv msg => Except.error msg
  | _ => Except.ok acc

/-- Folds `processEvent` over the parsed events in arrival order, starting
from accumulator `acc`; an `error` event aborts the fold. -/
def runEvents (acc : String) : List StreamEvent → Except String String
  | [] => Except.ok acc
  | e :: es =>
    match applyEvent acc e with
    | Except.ok acc2 => runEvents acc2 es
    | Except.error msg => Except.error msg

/-- The buffer-splitting loop of `handleStreamingQuery`: the buffer is cut at
each blank line (the first occurrence of two consecutive newlines), exactly
as the `indexOf` / `slice` loop does, and the trailing unterminated segment
is kept as the final piece. -/
def splitOnBlank : List Char → List Char → List (List Char)
  | [], cur => [cur.reverse]
  | '\n' :: '\n' :: rest, cur => cur.reverse :: splitOnBlank rest []
  | c :: rest, cur => splitOnBlank rest (c :: cur)

/-- JavaScript `String.prototype.trim` on the character list model. -/
def trimChars (cs : List Char) : List Char :=
  (((cs.dropWhile (fun c => c.isWhitespace)).reverse.dropWhile
    (fun c => c.isWhitespace))).reverse

/-- The `startsWith` / `slice(6)` step of `processEvent`: a segment is
considered only when it starts with the SSE data prefix, and the prefix is
stripped from it. -/
def stripData : List Char → Option (List Char)
  | 'd' :: 'a' :: 't' :: 'a' :: ':' :: ' ' :: payload => some payload
  | _ => none

/-- The segments `handleStreamingQuery` hands to `processEvent`: every piece
cut at a blank line plus the trailing buffer, each trimmed, empty pieces
skipped. -/
def extractSegments (stream : List Char) : List (List Char) :=
  ((splitOnBlank stream []).map trimChars).filter (fun s => s ≠ [])

/-- The events the stream consumer actually processes: segments that carry
the data prefix and a non-empty payload that `parseEvent` (the model of
`JSON.parse` plus field dispatch) accepts. -/
def extractEvents (parseEvent : List Char → Option StreamEvent)
    (stream : List Char) : List StreamEvent :=
  (extractSegments stream).filterMap (fun seg =>
    match stripData seg with
    | some payload => if payload = [] then none else parseEvent payload
    | none => none)

/-- The accumulated answer `handleStreamingQuery` computes from a full
stream: segmentation, prefix filtering, parsing, then the `processEvent`
fold. -/
def consumeStream (parseEvent : List Char → Option StreamEvent)
    (stream : List Char) : Except String String :=
  runEvents ("") (extractEvents parseEvent stream)

/-- The fallback message chosen in `handleStreamingQuery` when the
accumulated answer is empty, as a function of the response mode. -/
def fallbackMessage (mode : String) : String :=
  if mode = "direct" then "I\x27m sorry, I couldn\x27t generate a response."
  else "I cannot find this information in the provided documents."

/-- `answerContent` from `handleStreamingQuery`: the accumulated answer, or
the mode's fallback message when the accumulated answer is empty (the
JavaScript `streamedAnswer || ...`). -/
def answerContent (streamedAnswer mode : String) : String :=
  if streamedAnswer = "" then fallbackMessage mode else streamedAnswer

/-- The content of the assistant message appended at the end of
`handleStreamingQuery` (an `error` event instead propagates as an
exception). -/
def appendedContent (parseEvent : List Char → Option StreamEvent)
    (stream : List Char) (mode : String) : Except String String :=
  match consumeStream parseEvent stream with
  | Except.ok s => Except.ok (answerContent s mode)
  | Except.error msg => Except.error msg

/-- Concatenation, in arrival order, of the contents of all `answer_chunk`
events. -/
def chunkConcat : List StreamEvent → String
  | [] => ""
  | StreamEvent.answerChunk c :: es => c ++ chunkConcat es
  | _ :: es => chunkConcat es

/-- The last `answer` event with `done` set, together with the events that
arrive after it. -/
def lastDoneSplit : List StreamEvent → Option (String × List StreamEvent)
  | [] => none
  | e :: es =>
    match lastDoneSplit es with
    | some p => some p
    | none =>
      match e with
      | StreamEvent.answerEv c true => some (c, es)
      | _ => none

/-- The accumulated answer as the amended claim states it: the content of
the last `answer` event with `done` set followed by the chunks arriving
after it, or the concatenation of all chunks when no such event appears. -/
def amendedAnswer (evs : List StreamEvent) : String :=
  match lastDoneSplit evs with
  | some (c, rest) => c ++ chunkConcat rest
  | none => chunkConcat evs

/-- The accumulated answer as the original claim states it: the
concatenation of all `answer_chunk` contents — unless an `answer` event with
`done` set appears, in which case the content of that event. -/
def claimedAnswer (evs : List StreamEvent) : String :=
  match evs.findSome? (fun e =>
    match e with
    | StreamEvent.answerEv c true => some c
    | _ => none) with
  | some c => c
  | none => chunkConcat evs

/-! ### Frontend local metrics (`App.jsx`, `updateLocalMetrics`) -/

/-- The `localMetrics` state of `App.jsx`.  Counters are naturals; the
average is kept as an exact rational, per the claim's exact-arithmetic
reading. -/
structure LocalMetrics where
  totalQueries : Nat
  corrections : Nat
  avgResponseTime : ℚ
deriving DecidableEq, Repr

/-- The initial `localMetrics` state. -/
def initialLocalMetrics : LocalMetrics :=
  { totalQueries := 0, corrections := 0, avgResponseTime := 0 }

/-- `updateLocalMetrics` from `App.jsx`: increments the query counter,
counts corrections, and maintains the running average response time. -/
def updateLocalMetrics (prev : LocalMetrics) (wasCorrect : Bool)
    (responseTime : ℚ) : LocalMetrics :=
  { totalQueries := prev.totalQueries + 1
    corrections := prev.corrections + (if wasCorrect then 1 else 0)
    avgResponseTime :=
      (prev.avgResponseTime * (prev.totalQueries : ℚ) + responseTime) /
        ((prev.totalQueries : ℚ) + 1) }

/-- A finite sequence of `updateLocalMetrics` calls applied in order. -/
def applyCalls (init : LocalMetrics) (calls : List (Bool × ℚ)) : LocalMetrics :=
  calls.foldl (fun m c => updateLocalMetrics m c.1 c.2) init

/-! ### Pipeline composition (determinism) -/

/-- Modelled from the spec: the abstract capabilities the pipeline consumes
(query rewriting, the two retrieval sources, cross-encoder scoring), all as
pure functions of their inputs, with any stochastic component fixed by the
seed baked into the capability. -/
structure RagCaps where
  rewrite : String → List String
  vectorSearch : String → List Nat
  lexicalSearch : String → List Nat
  crossScore : String → Nat → ℚ

instance (score : Nat → ℚ) : DecidableRel (fun a b : Nat => score b ≤ score a) :=
  fun a b => inferInstanceAs (Decidable (score b ≤ score a))

/-- Modelled from the spec: the Re-ranker — sort the fused candidates by
cross-encoder score, highest first, and keep the top `topN`. -/
def rerank (score : Nat → ℚ) (topN : Nat) (cands : List Nat) : List Nat :=
  (List.insertionSort (fun a b => score b ≤ score a) cands).take topN

/-- Modelled from the spec: the full retrieval pipeline for one query — the
rewriter's variants, one vector and one lexical ranked list per variant, RRF
fusion of all lists, then re-ranking to the top `topN`. -/
def pipelineTopN (caps : RagCaps) (k topN : Nat) (query : String) : List Nat :=
  let variants := caps.rewrite query
  let lists := variants.map caps.vectorSearch ++ variants.map caps.lexicalSearch
  rerank (caps.crossScore query) topN (rrfFuse k lists)

/-! ### Helper lemmas -/

lemma rrfScore_nil (k : Nat) (c : Nat) : rrfScore k [] c = 0 := rfl

lemma rrfScore_cons (k : Nat) (l : List Nat) (ls : List (List Nat)) (c : Nat) :
    rrfScore k (l :: ls) c = listContribution k c l + rrfScore k ls c := by
  simp [rrfScore]

lemma correctionLoop_exhaust (gen : Nat → Option String) (validator : Nat → Bool)
    (maxRetries : Nat) (hg : ∀ n, (gen n).isSome) (hv : ∀ n, validator n = false) :
    ∀ d attempt, maxRetries - attempt = d → attempt ≤ maxRetries →
      ∀ ans, gen maxRetries = some ans →
      correctionLoop gen validator maxRetries attempt =
        RunResult.answer ans false (maxRetries + 1) := by
  intro d
  induction d with
  | zero =>
    intro a hd ha ans hans
    have hm : a = maxRetries := by omega
    subst hm
    rw [correctionLoop, hans]
    simp [hv a, dif_neg (lt_irrefl a)]
  | succ d ih =>
    intro a hd ha ans hans
    have hlt : a < maxRetries := by omega
    obtain ⟨x, hx⟩ := Option.isSome_iff_exists.mp (hg a)
    rw [correctionLoop, hx]
    simp [hv a, dif_pos hlt, ih (a + 1) (by omega) (by omega) ans hans]

lemma correctionLoop_attempts_le (gen : Nat → Option String) (v : Nat → Bool)
    (maxRetries : Nat) :
    ∀ d attempt, maxRetries - attempt = d → attempt ≤ maxRetries →
      ∀ ans f att, correctionLoop gen v maxRetries attempt =
        RunResult.answer ans f att → att ≤ maxRetries + 1 := by
  intro d
  induction d with
  | zero =>
    intro a hd ha ans f att h
    have hm : a = maxRetries := by omega
    subst hm
    rcases hx : gen a with _ | x
    · rw [correctionLoop, hx] at h
      exact absurd h (by simp)
    · rw [correctionLoop, hx] at h
      by_cases hva : v a
      · simp [hva] at h
        omega
      · simp [hva, dif_neg (lt_irrefl a)] at h
        omega
  | succ d ih =>
    intro a hd ha ans f att h
    have hlt : a < maxRetries := by omega
    rcases hx : gen a with _ | x
    · rw [correctionLoop, hx] at h
      exact absurd h (by simp)
    · rw [correctionLoop, hx] at h
      by_cases hva : v a
      · simp [hva] at h
        omega
      · simp [hva, dif_pos hlt] at h
        exact ih (a + 1) (by omega) (by omega) ans f att h

/-! ### Claims -/

/-- C1: the Reciprocal Rank Fusion score of a candidate is the sum, over the
ranked lists in which it appears, of `1 / (rank_constant + rank_position)`
with 1-based ranks; with the default constant 60, a candidate at ranks `r1`
and `r2` in two lists scores `1/(60+r1) + 1/(60+r2)`, and a candidate
present in exactly one of the two lists at rank `r` scores `1/(60+r)`. -/
theorem rrf_score_formula :
    (∀ (k : Nat) (lists : List (List Nat)) (c : Nat),
      rrfScore k lists c =
        ((lists.filterMap (fun l => rankOf c l)).map
          (fun r => 1 / ((k : ℚ) + (r : ℚ)))).sum) ∧
    (∀ (l1 l2 : List Nat) (c r1 r2 : Nat),
      rankOf c l1 = some r1 → rankOf c l2 = some r2 →
      rrfScore 60 [l1, l2] c = 1 / ((60 : ℚ) + (r1 : ℚ)) + 1 / ((60 : ℚ) + (r2 : ℚ))) ∧
    (∀ (l1 l2 : List Nat) (c r : Nat),
      rankOf c l1 = some r → rankOf c l2 = none →
      rrfScore 60 [l1, l2] c = 1 / ((60 : ℚ) + (r : ℚ))) ∧
    (∀ (l1 l2 : List Nat) (c r : Nat),
      rankOf c l1 = none → rankOf c l2 = some r →
      rrfScore 60 [l1, l2] c = 1 / ((60 : ℚ) + (r : ℚ))) := by
  have hsum : ∀ (k : Nat) (lists : List (List Nat)) (c : Nat),
      rrfScore k lists c =
        ((lists.filterMap (fun l => rankOf c l)).map
          (fun r => 1 / ((k : ℚ) + (r : ℚ)))).sum := by
    intro k lists c
    induction lists with
    | nil => rfl
    | cons l ls ih =>
      rcases h : rankOf c l with _ | r
      · simp [rrfScore_cons, listContribution, h, ih]
      · simp [rrfScore_cons, listContribution, h, ih]
  refine ⟨hsum, ?_, ?_, ?_⟩
  · intro l1 l2 c r1 r2 h1 h2
    simp [rrfScore, listContribution, h1, h2]
  · intro l1 l2 c r h1 h2
    simp [rrfScore, listContribution, h1, h2]
  · intro l1 l2 c r h1 h2
    simp [rrfScore, listContribution, h1, h2]

/-- Witness for C1 at concrete inputs: candidate 5 sits at rank 1 of `[5]`
and rank 2 of `[7, 5]`, and candidate 7 appears only in `[7, 5]` at
rank 1. -/
theorem rrf_score_formula_witness :
    rrfScore 60 [[5], [7, 5]] 5 = 1 / (60 + 1 : ℚ) + 1 / (60 + 2 : ℚ) ∧
    rrfScore 60 [[5], [7, 5]] 7 = 1 / (60 + 1 : ℚ) := by
  constructor
  · exact rrf_score_formula.2.1 [5] [7, 5] 5 1 2 (by decide) (by decide)
  · have h := rrf_score_formula.2.2.2 [5] [7, 5] 7 1 (by decide) (by decide)
    exact h

/-- C2: when the validator rejects every attempt, the controller performs
exactly `1 + maxRetries` generation attempts and terminates with an answer
flagged as unvalidated; moreover, for any validator, a run never reports
more than `1 + maxRetries` attempts. -/
theorem controller_retry_bound (gen : Nat → Option String) (validator : Nat → Bool)
    (maxRetries : Nat) (hg : ∀ n, (gen n).isSome) (hv : ∀ n, validator n = false) :
    (∃ ans, runController gen validator maxRetries =
      RunResult.answer ans false (1 + maxRetries)) ∧
    (∀ (v2 : Nat → Bool) (ans : String) (f : Bool) (att : Nat),
      runController gen v2 maxRetries = RunResult.answer ans f att →
      att ≤ 1 + maxRetries) := by
  constructor
  · obtain ⟨ans, hans⟩ := Option.isSome_iff_exists.mp (hg maxRetries)
    have h := correctionLoop_exhaust gen validator maxRetries hg hv
      (maxRetries - 0) 0 rfl (Nat.zero_le _) ans hans
    exact ⟨ans, by rw [runController, h, Nat.add_comm]⟩
  · intro v2 ans f att h
    have := correctionLoop_attempts_le gen v2 maxRetries (maxRetries - 0) 0 rfl
      (Nat.zero_le _) ans f att h
    omega

/-- Witness for C2: with `maxRetries = 2` and an always-rejecting validator,
the controller performs exactly 3 generation attempts. -/
theorem controller_retry_bound_witness :
    ∃ ans, runController (fun _ => some ("ok")) (fun _ => false) 2 =
      RunResult.answer ans false 3 :=
  (controller_retry_bound (fun _ => some ("ok")) (fun _ => false) 2
    (fun _ => rfl) (fun _ => rfl)).1

/-- C3: the validator's verdict is "supported" exactly when the model
response parses to an affirmative answer — an inconclusive, non-affirmative
or unparseable response always yields "unsupported" (fail closed) — and an
"unsupported" verdict below the retry cap feeds the retry path (the
controller recurses into the next attempt) rather than raising an error. -/
theorem validator_fails_closed (parseVerdict : String → Option Bool) (response : String) :
    (validatorVerdict parseVerdict response = true ↔ parseVerdict response = some true) ∧
    (∀ (gen : Nat → Option String) (v : Nat → Bool) (m a : Nat) (ans : String),
      gen a = some ans → v a = false → a < m →
      correctionLoop gen v m a = correctionLoop gen v m (a + 1)) := by
  constructor
  · constructor
    · intro h
      rcases hp : parseVerdict response with _ | b
      · simp [validatorVerdict, hp] at h
      · cases b
        · simp [validatorVerdict, hp] at h
        · rfl
    · intro h
      simp [validatorVerdict, h]
  · intro gen v m a ans hgen hv hlt
    rw [correctionLoop, hgen]
    simp [hv, dif_pos hlt]

/-- Witness for C3: an affirmative parse is supported, and with the verdict
"unsupported" at attempt 0 of a 2-retry run the controller moves to
attempt 1. -/
theorem validator_fails_closed_witness :
    validatorVerdict (fun _ => some true) ("yes") = true ∧
    correctionLoop (fun _ => some ("a")) (fun _ => false) 2 0 =
      correctionLoop (fun _ => some ("a")) (fun _ => false) 2 1 :=
  ⟨(validator_fails_closed (fun _ => some true) ("yes")).1.mpr rfl,
    (validator_fails_closed (fun _ => some true) ("yes")).2
      (fun _ => some ("a")) (fun _ => false) 2 0 "a" rfl rfl (by decide)⟩

/-- C4: a query run ends in either an answer (carrying its validation flag)
or an explicit typed failure; exhausting the retries collapses into an
accepted answer — the last generated one — with the unsupported flag set,
never an empty result; and the frontend stream consumer never shows an
empty assistant message, replacing an empty accumulated answer by the
mode's non-empty fallback message. -/
theorem caller_never_gets_silent_empty (gen : Nat → Option String)
    (validator : Nat → Bool) (maxRetries : Nat) (ans s mode : String)
    (hg : ∀ n, (gen n).isSome) (hv : ∀ n, validator n = false)
    (hlast : gen maxRetries = some ans) :
    (∀ (g2 : Nat → Option String) (v2 : Nat → Bool) (m2 : Nat),
      runController g2 v2 m2 = RunResult.genFailure ∨
        ∃ a f att, runController g2 v2 m2 = RunResult.answer a f att) ∧
    runController gen validator maxRetries =
      RunResult.answer ans false (maxRetries + 1) ∧
    answerContent s mode ≠ "" := by
  refine ⟨?_, ?_, ?_⟩
  · intro g2 v2 m2
    rcases h : runController g2 v2 m2 with ⟨a, f, att⟩ | _
    · exact Or.inr ⟨a, f, att, rfl⟩
    · exact Or.inl rfl
  · exact correctionLoop_exhaust gen validator maxRetries hg hv
      (maxRetries - 0) 0 rfl (Nat.zero_le _) ans hlast
  · by_cases hs : s = ""
    · subst hs
      by_cases hm : mode = "direct" <;>
        simp [answerContent, fallbackMessage, hm]
    · simp [answerContent, hs]

/-- Witness for C4: a 2-retry run whose generator always produces "draft"
and whose validator always rejects ends accepted-but-unvalidated with the
generated text, and an empty accumulated answer in quality mode is shown as
the non-empty fallback. -/
theorem caller_never_gets_silent_empty_witness :
    runController (fun _ => some ("draft")) (fun _ => false) 2 =
      RunResult.answer ("draft") false 3 ∧
    answerContent ("") ("quality") ≠ "" :=
  ⟨(caller_never_gets_silent_empty (fun _ => some ("draft")) (fun _ => false) 2
      "draft" "" "quality" (fun _ => rfl) (fun _ => rfl) rfl).2.1,
    (caller_never_gets_silent_empty (fun _ => some ("draft")) (fun _ => false) 2
      "draft" "" "quality" (fun _ => rfl) (fun _ => rfl) rfl).2.2⟩

/-- C7: deleting a document acts on both indices atomically — the end state
is either exactly the prior state or the state with every one of the
document's chunks removed from both indices (chunks of other documents
untouched); a state with only part of the document's chunks removed is
never an end state. -/
theorem delete_document_atomic (st : IndexState) (doc : String) (ok : Bool) :
    (deleteDocument st doc ok = st ∨
      deleteDocument st doc ok =
        { lex := removeDocChunks st.lex doc, vec := removeDocChunks st.vec doc }) ∧
    (ok = true →
      (∀ c ∈ (deleteDocument st doc ok).lex, c.2 ≠ doc) ∧
      (∀ c ∈ (deleteDocument st doc ok).vec, c.2 ≠ doc) ∧
      (∀ c ∈ st.lex, c.2 ≠ doc → c ∈ (deleteDocument st doc ok).lex) ∧
      (∀ c ∈ st.vec, c.2 ≠ doc → c ∈ (deleteDocument st doc ok).vec)) ∧
    (ok = false → deleteDocument st doc ok = st) := by
  cases ok
  · simp [deleteDocument, removeDocChunks, List.mem_filter]
  · simp [deleteDocument, removeDocChunks, List.mem_filter]
    exact ⟨fun a b h hb => ⟨h, hb⟩, fun a b h hb => ⟨h, hb⟩⟩

/-- Witness for C7: deleting document "a" from a concrete two-document
state removes exactly its chunks from both indices. -/
theorem delete_document_atomic_witness :
    (∀ c ∈ (deleteDocument ⟨[(1, "a"), (2, "b")], [(3, "a"), (4, "b")]⟩ "a" true).lex,
      c.2 ≠ "a") ∧
    (∀ c ∈ (deleteDocument ⟨[(1, "a"), (2, "b")], [(3, "a"), (4, "b")]⟩ "a" true).vec,
      c.2 ≠ "a") ∧
    deleteDocument ⟨[(1, "a"), (2, "b")], [(3, "a"), (4, "b")]⟩ "a" false =
      ⟨[(1, "a"), (2, "b")], [(3, "a"), (4, "b")]⟩ :=
  ⟨((delete_document_atomic ⟨[(1, "a"), (2, "b")], [(3, "a"), (4, "b")]⟩ "a" true).2.1
      rfl).1,
    ((delete_document_atomic ⟨[(1, "a"), (2, "b")], [(3, "a"), (4, "b")]⟩ "a" true).2.1
      rfl).2.1,
    (delete_document_atomic ⟨[(1, "a"), (2, "b")], [(3, "a"), (4, "b")]⟩ "a" false).2.2
      rfl⟩

/-- C9: after any finite sequence of `updateLocalMetrics` calls starting
from the initial local metrics, `totalQueries` is the number of calls,
`corrections` is the number of calls with `wasCorrect` set, and
`avgResponseTime` is the arithmetic mean of the response times (exact
arithmetic; the empty mean is 0, matching the initial state). -/
theorem local_metrics_correct (calls : List (Bool × ℚ)) :
    (applyCalls initialLocalMetrics calls).totalQueries = calls.length ∧
    (applyCalls initialLocalMetrics calls).corrections =
      (calls.filter (fun c => c.1)).length ∧
    (applyCalls initialLocalMetrics calls).avgResponseTime =
      (calls.map (fun c => c.2)).sum / (calls.length : ℚ) := by
  induction calls using List.reverseRecOn with
  | nil => simp [applyCalls, initialLocalMetrics]
  | append_singleton l c ih =>
    obtain ⟨ihq, ihc, iha⟩ := ih
    have hstep : applyCalls initialLocalMetrics (l ++ [c]) =
        updateLocalMetrics (applyCalls initialLocalMetrics l) c.1 c.2 := by
      simp [applyCalls, List.foldl_append]
    refine ⟨?_, ?_, ?_⟩
    · simp [hstep, updateLocalMetrics, ihq]
    · simp [hstep, updateLocalMetrics, ihc, List.filter_append]
      cases hc : c.1 <;> simp [List.filter_cons, hc]
    · rw [hstep]
      simp only [updateLocalMetrics, iha, ihq]
      rcases Nat.eq_zero_or_pos l.length with hl | hl
      · have : l = [] := List.length_eq_zero.mp hl
        subst this
        simp
      · have hn : ((l.length : ℚ)) ≠ 0 := Nat.cast_ne_zero.mpr (by omega)
        rw [div_mul_cancel₀ _ hn]
        simp only [List.map_append, List.sum_append, List.map_cons, List.map_nil,
          List.sum_cons, List.sum_nil, List.length_append, List.length_cons,
          List.length_nil]
        push_cast
        ring

lemma rankOf_get :
    ∀ (l : List Nat), l.Nodup → ∀ (i : Fin l.length),
      rankOf (l.get i) l = some (i.val + 1) := by
  intro l
  induction l with
  | nil => intro _ i; exact absurd i.isLt (by simp)
  | cons x xs ih =>
    intro hl i
    rcases i with ⟨n, hn⟩
    cases n with
    | zero => simp [rankOf]
    | succ n =>
      have hn2 : n < xs.length := by simpa using hn
      have hx : x ≠ xs.get ⟨n, hn2⟩ := fun he =>
        (List.nodup_cons.mp hl).1 (he ▸ List.get_mem xs n hn2)
      have hget : List.get (x :: xs) ⟨n + 1, hn⟩ = xs.get ⟨n, hn2⟩ := rfl
      rw [hget]
      simp only [rankOf]
      rw [if_neg hx, ih (List.nodup_cons.mp hl).2 ⟨n, hn2⟩]
      rfl

lemma rrfScore_vec_empty (k : Nat) (vec : List Nat) (c : Nat) :
    rrfScore k [vec, []] c = listContribution k c vec := by
  have h0 : listContribution k c [] = 0 := rfl
  simp [rrfScore, h0]

lemma sorted_vec_rrf (vec : List Nat) (h : vec.Nodup) :
    List.Sorted (rrfPrecedes 60 [vec, []]) vec := by
  rw [List.Sorted, List.pairwise_iff_get]
  intro i j hij
  left
  have hi := rankOf_get vec h i
  have hj := rankOf_get vec h j
  have hsi : rrfScore 60 [vec, []] (vec.get i) = 1 / ((60 : ℚ) + ((i.val + 1 : ℕ) : ℚ)) := by
    rw [rrfScore_vec_empty]
    simp only [listContribution]
    rw [hi]
    norm_num
  have hsj : rrfScore 60 [vec, []] (vec.get j) = 1 / ((60 : ℚ) + ((j.val + 1 : ℕ) : ℚ)) := by
    rw [rrfScore_vec_empty]
    simp only [listContribution]
    rw [hj]
    norm_num
  rw [hsi, hsj]
  have hij2 : (i.val : ℚ) < (j.val : ℚ) := by exact_mod_cast hij
  apply one_div_lt_one_div_of_lt
  · positivity
  · push_cast
    linarith

/-- C5: when the lexical list is empty but the vector list is not, RRF
fusion with the one empty input list returns exactly the vector-only
ranking, in the same order; and a candidate's contribution from the empty
list is 0. -/
theorem rrf_empty_lexical_degradation (vec : List Nat) (hnd : vec.Nodup)
    (hne : vec ≠ []) :
    rrfFuse 60 [vec, []] = vec ∧ ∀ c, listContribution 60 c [] = 0 := by
  constructor
  · unfold rrfFuse
    rw [show ([vec, ([] : List Nat)]).flatten = vec by simp]
    rw [List.dedup_eq_self.mpr hnd]
    exact (sorted_vec_rrf vec hnd).insertionSort_eq
  · intro c
    rfl

/-- Witness for C5: fusing the non-empty vector ranking `[3, 1, 2]` with an
empty lexical ranking returns `[3, 1, 2]` unchanged. -/
theorem rrf_empty_lexical_degradation_witness :
    rrfFuse 60 [[3, 1, 2], []] = [3, 1, 2] :=
  (rrf_empty_lexical_degradation [3, 1, 2] (by decide) (by decide)).1

/-- C6: the pipeline is a pure function of its capabilities and inputs —
two runs over the same corpus and query produce the same top-N re-ranked
list, and the Re-ranker returns identical output for identical
(query-scorer, candidate-list) inputs. -/
theorem pipeline_two_run_deterministic (caps : RagCaps) (k topN : Nat)
    (q1 q2 : String) (hq : q1 = q2) (score : Nat → ℚ)
    (cands1 cands2 : List Nat) (hc : cands1 = cands2) :
    pipelineTopN caps k topN q1 = pipelineTopN caps k topN q2 ∧
    rerank score topN cands1 = rerank score topN cands2 := by
  subst hq
  subst hc
  exact ⟨rfl, rfl⟩

/-- Witness for C6 at a concrete capability set, query and candidate
list. -/
theorem pipeline_two_run_deterministic_witness :
    pipelineTopN ⟨fun q => [q], fun _ => [1, 2], fun _ => [2], fun _ c => (c : ℚ)⟩
        60 5 ("demo") =
      pipelineTopN ⟨fun q => [q], fun _ => [1, 2], fun _ => [2], fun _ c => (c : ℚ)⟩
        60 5 ("demo") ∧
    rerank (fun c => (c : ℚ)) 5 [1, 2, 3] = rerank (fun c => (c : ℚ)) 5 [1, 2, 3] :=
  pipeline_two_run_deterministic
    ⟨fun q => [q], fun _ => [1, 2], fun _ => [2], fun _ c => (c : ℚ)⟩
    60 5 ("demo") ("demo") rfl (fun c => (c : ℚ)) [1, 2, 3] [1, 2, 3] rfl

lemma rankOf_append_not_mem (c : Nat) (l1 l2 : List Nat) (h : c ∉ l1) :
    rankOf c (l1 ++ l2) = (rankOf c l2).map (fun r => r + l1.length) := by
  induction l1 with
  | nil => cases h2 : rankOf c l2 <;> simp [h2]
  | cons x xs ih =>
    have hx : x ≠ c := fun he => h (by simp [he])
    have hxs : c ∉ xs := fun hm => h (List.mem_cons_of_mem x hm)
    rw [List.cons_append]
    simp only [rankOf]
    rw [if_neg hx, ih hxs]
    cases h2 : rankOf c l2 with
    | none => simp [h2]
    | some r =>
      simp [h2]
      omega

/-- The filler ids of the counterexample lists: 61 chunk ids distinct from
candidates 1 and 2. -/
def junkIds : List Nat := (List.range 61).map (fun i => i + 100)

/-- Counterexample list: candidate 2 at rank 1, candidate 1 at rank 63. -/
def cexList2 : List Nat := 2 :: junkIds ++ [1]

/-- Counterexample ranked lists: candidate 1 appears in all three (ranks 1,
63, 63), candidate 2 in two of them (ranks 1, 1). -/
def cexLists : List (List Nat) := [[1], cexList2, cexList2]

/-- C8 counterexample: with more than two ranked lists the claim fails —
candidate 1 appears in three lists, candidate 2 in two, both with best rank
1, yet candidate 1's fused score is strictly lower. -/
theorem rrf_more_lists_counterexample :
    bestRank cexLists 1 = some 1 ∧ bestRank cexLists 2 = some 1 ∧
    appearCount cexLists 2 < appearCount cexLists 1 ∧
    rrfScore 60 cexLists 1 < rrfScore 60 cexLists 2 := by
  have h1a : rankOf 1 [1] = some 1 := by decide
  have h2a : rankOf 2 [1] = none := by decide
  have h2b : rankOf 2 cexList2 = some 1 := by
    simp [cexList2, rankOf]
  have h1b : rankOf 1 cexList2 = some 63 := by
    rw [show cexList2 = (2 :: junkIds) ++ [1] from rfl]
    rw [rankOf_append_not_mem 1 (2 :: junkIds) [1] (by decide)]
    decide
  refine ⟨by decide, by decide, by decide, ?_⟩
  have e1 : rrfScore 60 cexLists 1 = 1 / (61 : ℚ) + 1 / (123 : ℚ) + 1 / (123 : ℚ) := by
    simp [cexLists, rrfScore, listContribution, h1a, h1b]
    norm_num
  have e2 : rrfScore 60 cexLists 2 = 1 / (61 : ℚ) + 1 / (61 : ℚ) := by
    simp [cexLists, rrfScore, listContribution, h2a, h2b]
    norm_num
  rw [e1, e2]
  norm_num

lemma appearCount_pair (l1 l2 : List Nat) (c : Nat) :
    appearCount [l1, l2] c =
      (if (rankOf c l1).isSome then 1 else 0) +
        (if (rankOf c l2).isSome then 1 else 0) := by
  rcases h1 : rankOf c l1 with _ | r1 <;> rcases h2 : rankOf c l2 with _ | r2 <;>
    simp [appearCount, h1, h2]

/-- C8 amended: (a) restricted to the fusion of the two ranked lists the
implementation fuses (one vector, one lexical), a candidate appearing in
both lists never scores lower than a candidate appearing in one list with
the same best rank; and (b) in the fused output, among candidates with
equal fused scores, one appearing in more lists is placed earlier, and with
equal scores and equal list counts the smaller id is placed earlier. -/
theorem rrf_tie_breaking_amended :
    (∀ (l1 l2 : List Nat) (a b r : Nat),
      bestRank [l1, l2] a = some r → bestRank [l1, l2] b = some r →
      appearCount [l1, l2] b < appearCount [l1, l2] a →
      rrfScore 60 [l1, l2] b ≤ rrfScore 60 [l1, l2] a) ∧
    (∀ (k : Nat) (lists : List (List Nat)) (a b : Nat),
      a ∈ lists.flatten.dedup → b ∈ lists.flatten.dedup →
      rrfScore k lists a = rrfScore k lists b →
      (appearCount lists b < appearCount lists a ∨
        (appearCount lists a = appearCount lists b ∧ a < b)) →
      ∃ (i j : Fin (rrfFuse k lists).length),
        i < j ∧ (rrfFuse k lists).get i = a ∧ (rrfFuse k lists).get j = b) := by
  constructor
  · intro l1 l2 a b r hba hbb hcnt
    rcases h1a : rankOf a l1 with _ | ra1 <;> rcases h2a : rankOf a l2 with _ | ra2 <;>
      rcases h1b : rankOf b l1 with _ | rb1 <;> rcases h2b : rankOf b l2 with _ | rb2 <;>
      simp [bestRank, appearCount_pair, h1a, h2a, h1b, h2b] at hba hbb hcnt <;>
      simp [rrfScore, listContribution, h1a, h2a, h1b, h2b]
    -- remaining: a appears in both lists, b in exactly one
    · -- b appears only in l2 at rank rb2 = r
      have hpos1 : (0 : ℚ) < ((60 : ℚ) + (ra1 : ℚ))⁻¹ := by positivity
      have hpos2 : (0 : ℚ) < ((60 : ℚ) + (ra2 : ℚ))⁻¹ := by positivity
      rcases Nat.le_total ra1 ra2 with hle | hle
      · have h1 : rb2 = ra1 := by
          split at hba <;> omega
        subst h1
        linarith
      · have h1 : rb2 = ra2 := by
          split at hba <;> omega
        subst h1
        linarith
    · -- b appears only in l1 at rank rb1 = r
      have hpos1 : (0 : ℚ) < ((60 : ℚ) + (ra1 : ℚ))⁻¹ := by positivity
      have hpos2 : (0 : ℚ) < ((60 : ℚ) + (ra2 : ℚ))⁻¹ := by positivity
      rcases Nat.le_total ra1 ra2 with hle | hle
      · have h1 : rb1 = ra1 := by
          split at hba <;> omega
        subst h1
        linarith
      · have h1 : rb1 = ra2 := by
          split at hba <;> omega
        subst h1
        linarith
  · intro k lists a b ha hb hscore htie
    have hma : a ∈ rrfFuse k lists := by
      rw [rrfFuse, List.mem_insertionSort]
      exact ha
    have hmb : b ∈ rrfFuse k lists := by
      rw [rrfFuse, List.mem_insertionSort]
      exact hb
    obtain ⟨i, hi⟩ := List.mem_iff_get.mp hma
    obtain ⟨j, hj⟩ := List.mem_iff_get.mp hmb
    have hpair : List.Pairwise (rrfPrecedes k lists) (rrfFuse k lists) :=
      List.sorted_insertionSort (rrfPrecedes k lists) (lists.flatten.dedup)
    rcases lt_trichotomy i j with hij | hij | hij
    · exact ⟨i, j, hij, hi, hj⟩
    · exfalso
      have hab : a = b := by rw [← hi, ← hj, hij]
      subst hab
      rcases htie with h | ⟨_, h⟩ <;> omega
    · exfalso
      have hp := (List.pairwise_iff_get.mp hpair) j i hij
      rw [hi, hj] at hp
      rcases hp with hp | ⟨hps, hp⟩
      · rw [hscore] at hp
        exact lt_irrefl _ hp
      · rcases hp with hp | ⟨hpc, hp⟩
        · rcases htie with h | ⟨h, _⟩ <;> omega
        · rcases htie with h | ⟨h, hlt⟩ <;> omega

/-- Witness for the amended C8: concretely, candidate 2 of `[[1, 2], [2]]`
appears in both lists with best rank 1 and scores at least candidate 1
(one list, best rank 1); and in the fused output of `[[1, 2], [2, 1]]` the
equally-scored, equally-counted candidates 1 and 2 appear in id order. -/
theorem rrf_tie_breaking_amended_witness :
    rrfScore 60 [[1, 2], [2]] 1 ≤ rrfScore 60 [[1, 2], [2]] 2 ∧
    ∃ (i j : Fin (rrfFuse 60 [[1, 2], [2, 1]]).length),
      i < j ∧ (rrfFuse 60 [[1, 2], [2, 1]]).get i = 1 ∧
        (rrfFuse 60 [[1, 2], [2, 1]]).get j = 2 :=
  ⟨rrf_tie_breaking_amended.1 [1, 2] [2] 2 1 1 (by decide) (by decide) (by decide),
    rrf_tie_breaking_amended.2 60 [[1, 2], [2, 1]] 1 2 (by decide) (by decide)
      (by simp [rrfScore, listContribution, rankOf, add_comm])
      (Or.inr ⟨by decide, by decide⟩)⟩

lemma runEvents_no_error (evs : List StreamEvent) :
    ∀ acc, (∀ e ∈ evs, isErrorEvent e = false) →
      runEvents acc evs = Except.ok
        (match lastDoneSplit evs with
         | some p => p.1 ++ chunkConcat p.2
         | none => acc ++ chunkConcat evs) := by
  induction evs with
  | nil =>
    intro acc _
    simp [runEvents, lastDoneSplit, chunkConcat]
  | cons e es ih =>
    intro acc h
    have he : isErrorEvent e = false := h e (List.mem_cons_self e es)
    have hes : ∀ x ∈ es, isErrorEvent x = false :=
      fun x hx => h x (List.mem_cons_of_mem e hx)
    cases e with
    | answerChunk c =>
      rw [show runEvents acc (StreamEvent.answerChunk c :: es) =
        runEvents (acc ++ c) es from rfl]
      rw [ih (acc ++ c) hes]
      cases hsplit : lastDoneSplit es with
      | some p => simp [lastDoneSplit, hsplit, chunkConcat]
      | none => simp [lastDoneSplit, hsplit, chunkConcat, String.append_assoc]
    | answerEv c d =>
      cases d with
      | false =>
        rw [show runEvents acc (StreamEvent.answerEv c false :: es) =
          runEvents acc es from rfl]
        rw [ih acc hes]
        cases hsplit : lastDoneSplit es with
        | some p => simp [lastDoneSplit, hsplit, chunkConcat]
        | none => simp [lastDoneSplit, hsplit, chunkConcat]
      | true =>
        rw [show runEvents acc (StreamEvent.answerEv c true :: es) =
          runEvents c es from rfl]
        rw [ih c hes]
        cases hsplit : lastDoneSplit es with
        | some p => simp [lastDoneSplit, hsplit, chunkConcat]
        | none => simp [lastDoneSplit, hsplit, chunkConcat]
    | errorEv msg => exact absurd he (by simp [isErrorEvent])
    | convEv cid =>
      rw [show runEvents acc (StreamEvent.convEv cid :: es) =
        runEvents acc es from rfl]
      rw [ih acc hes]
      cases hsplit : lastDoneSplit es with
      | some p => simp [lastDoneSplit, hsplit, chunkConcat]
      | none => simp [lastDoneSplit, hsplit, chunkConcat]
    | metadataEv =>
      rw [show runEvents acc (StreamEvent.metadataEv :: es) =
        runEvents acc es from rfl]
      rw [ih acc hes]
      cases hsplit : lastDoneSplit es with
      | some p => simp [lastDoneSplit, hsplit, chunkConcat]
      | none => simp [lastDoneSplit, hsplit, chunkConcat]
    | otherEv =>
      rw [show runEvents acc (StreamEvent.otherEv :: es) =
        runEvents acc es from rfl]
      rw [ih acc hes]
      cases hsplit : lastDoneSplit es with
      | some p => simp [lastDoneSplit, hsplit, chunkConcat]
      | none => simp [lastDoneSplit, hsplit, chunkConcat]

/-- Concrete model of `JSON.parse` plus type dispatch for the
counterexample stream: payload `A` is a completed `answer` event with
content `Alpha`, payload `B` an `answer_chunk` with content `Beta`. -/
def parseDemo (payload : List Char) : Option StreamEvent :=
  if payload = ['A'] then some (StreamEvent.answerEv ("Alpha") true)
  else if payload = ['B'] then some (StreamEvent.answerChunk ("Beta")) else none

/-- Counterexample stream: a completed `answer` event followed by an
`answer_chunk` event. -/
def demoStream : List Char := ("data: A\n\ndata: B").toList

/-- C10 counterexample: on the error-free stream with a done `answer` event
(content `Alpha`) followed by an `answer_chunk` (content `Beta`), the
consumer accumulates `AlphaBeta`, while the claim's formula says the
message content is `Alpha` — the claim's equality fails. -/
theorem stream_consumer_counterexample :
    (∀ e ∈ extractEvents parseDemo demoStream, isErrorEvent e = false) ∧
    consumeStream parseDemo demoStream = Except.ok ("AlphaBeta") ∧
    claimedAnswer (extractEvents parseDemo demoStream) = "Alpha" ∧
    consumeStream parseDemo demoStream ≠
      Except.ok (claimedAnswer (extractEvents parseDemo demoStream)) := by
  refine ⟨by decide, by rfl, by decide, ?_⟩
  intro hcontra
  rw [show claimedAnswer (extractEvents parseDemo demoStream) = "Alpha" from by decide,
    show consumeStream parseDemo demoStream = Except.ok ("AlphaBeta") from rfl] at hcontra
  exact absurd (Except.ok.inj hcontra) (by decide)

/-- C10 amended: for every error-free stream, the accumulated answer — and
hence the appended assistant message, after the empty-answer fallback — is
the content of the last `answer` event with `done` set concatenated with
the `answer_chunk` contents arriving after it (the concatenation of all
chunk contents if no such `answer` event appears), over the events parsed
from the blank-line-delimited `data: ` segments including the trailing
unterminated one. -/
theorem stream_consumer_amended (parseEvent : List Char → Option StreamEvent)
    (stream : List Char) (mode : String)
    (h : ∀ e ∈ extractEvents parseEvent stream, isErrorEvent e = false) :
    consumeStream parseEvent stream =
      Except.ok (amendedAnswer (extractEvents parseEvent stream)) ∧
    appendedContent parseEvent stream mode =
      Except.ok (answerContent (amendedAnswer (extractEvents parseEvent stream)) mode) := by
  have hmain : consumeStream parseEvent stream =
      Except.ok (amendedAnswer (extractEvents parseEvent stream)) := by
    rw [consumeStream, runEvents_no_error (extractEvents parseEvent stream) "" h]
    cases hsplit : lastDoneSplit (extractEvents parseEvent stream) with
    | some p => simp [amendedAnswer, hsplit]
    | none => simp [amendedAnswer, hsplit]
  refine ⟨hmain, ?_⟩
  rw [appendedContent, hmain]

/-- Witness for the amended C10 at the concrete counterexample stream: the
consumer yields `AlphaBeta`, which is what the amended formula computes. -/
theorem stream_consumer_amended_witness :
    consumeStream parseDemo demoStream =
      Except.ok (amendedAnswer (extractEvents parseDemo demoStream)) ∧
    appendedContent parseDemo demoStream ("quality") =
      Except.ok (answerContent (amendedAnswer (extractEvents parseDemo demoStream))
        ("quality")) :=
  stream_consumer_amended parseDemo demoStream ("quality") (by decide)

end Celeby
